import Mathlib

/-!
Shallow embedding of BioScriptor's web-search aggregation code:
`src/ScrapedDuck/main.py` (function `search_web_simple` and the envelope
built in `main`) and `src/server/services/scrapy-search.py` (the
`WebSearchSpider.parse_searx` parser).  Python strings are modelled as
`List Char`; the transport and markup collaborators are modelled by an
explicit `FetchOutcome` input describing what the single `requests.get`
plus BeautifulSoup parse produced (or that an exception was raised
somewhere inside the `try` body).
-/

namespace ScrapedDuck

/-- ASCII whitespace recognised both by Python's `str.strip()` and by the
regex class in `re.sub(r"\s+", " ", ...)` (space, tab, newline, carriage
return, vertical tab, form feed). -/
def pyWs (c : Char) : Bool :=
  c = ' ' || c = '\t' || c = '\n' || c = '\r' || c = '\x0b' || c = '\x0c'

/-- Python `str.strip()`: drop leading and trailing whitespace. -/
def pyStrip (s : List Char) : List Char :=
  List.rdropWhile pyWs (s.dropWhile pyWs)

/-- One pass of `re.sub(r"\s+", " ", s)`: every maximal run of whitespace
characters is replaced by a single space.  The boolean records whether the
previous character belonged to a whitespace run. -/
def collapseAux : Bool → List Char → List Char
  | _, [] => []
  | prevWs, c :: rest =>
    if pyWs c then
      if prevWs then collapseAux true rest
      else ' ' :: collapseAux true rest
    else c :: collapseAux false rest

/-- The whole substitution `re.sub(r"\s+", " ", s)`. -/
def collapseWs (s : List Char) : List Char := collapseAux false s

/-- The text-normalization pipeline applied by `search_web_simple` to titles
and snippets: `x.strip()`, then `re.sub(r"\s+", " ", x)`, then `x[:n]`
(main.py lines 37-49; the same three steps appear in the spider's
`parse_duckduckgo`, lines 68-79 of scrapy-search.py). -/
def normalize (s : List Char) (n : Nat) : List Char :=
  (collapseWs (pyStrip s)).take n

/-- Python `str.startswith`. -/
def startsWith : List Char → List Char → Bool
  | [], _ => true
  | _ :: _, [] => false
  | c :: cs, d :: ds => c = d && startsWith cs ds

/-- Python substring membership `pat in s`. -/
def containsStr (pat : List Char) : List Char → Bool
  | [] => startsWith pat []
  | s@(_ :: rest) => startsWith pat s || containsStr pat rest

/-- Python `str.replace(" ", "+")` for the single-character pattern used at
main.py line 79. -/
def replaceSpacePlus (s : List Char) : List Char :=
  s.map (fun c => if c = ' ' then '+' else c)

/-- One result record as appended to `results` (main.py lines 46-51). -/
structure SearchRecord where
  title : List Char
  url : List Char
  snippet : List Char
  source : List Char
deriving DecidableEq

/-- The `a.result__a` anchor inside a result container: its text content and
its optional `href` attribute (`title_link.get('href', '')`). -/
structure TitleLink where
  text : List Char
  href : Option (List Char)
deriving DecidableEq

/-- One `div.result` container: the optional `a.result__a` anchor and the
optional text of the `a.result__snippet` anchor. -/
structure ResultDiv where
  titleLink : Option TitleLink
  snippetText : Option (List Char)
deriving DecidableEq

/-- One anchor from `soup.find_all('a', href=True)`: `href=True` means the
attribute is present, so `href` is not optional here. -/
structure PageLink where
  href : List Char
  text : List Char
deriving DecidableEq

/-- The parsed document: what `soup.find_all('div', class_='result')` and
`soup.find_all('a', href=True)` return. -/
structure Soup where
  resultDivs : List ResultDiv
  links : List PageLink
deriving DecidableEq

/-- The behaviour of the fetch-and-parse body: either `requests.get` plus
BeautifulSoup produced a document, or some exception was raised inside the
`try` block (main.py lines 14-71). -/
inductive FetchOutcome where
  | ok (soup : Soup)
  | exn (msg : List Char)

def ddgDomain : List Char := "duckduckgo.com".data

/-- The search URL built at main.py line 16. -/
def searchUrl (q : List Char) : List Char :=
  "https://html.duckduckgo.com/html/?q=".data ++ q ++ "&s=0".data

/-- The body of one iteration of the primary loop (main.py lines 31-51):
if the container has a title anchor, strip and collapse the texts, read the
href (default empty), and if the title is non-empty, the url non-empty and
the url does not contain `duckduckgo.com`, produce the record with the
truncated fields; otherwise nothing is appended. -/
def divRecord? (d : ResultDiv) : Option SearchRecord :=
  match d.titleLink with
  | none => none
  | some tl =>
    let title := collapseWs (pyStrip tl.text)
    let url := tl.href.getD []
    let snippet := collapseWs (pyStrip ((d.snippetText).getD tl.text))
    if !title.isEmpty && !url.isEmpty && !containsStr ddgDomain url then
      some ⟨title.take 100, url, snippet.take 200, "DuckDuckGo-Simple".data⟩
    else none

/-- The primary loop over `result_divs[:max_results]`, appending to the
running `results` list exactly as the Python `for` does. -/
def primaryAux : List SearchRecord → List ResultDiv → List SearchRecord
  | acc, [] => acc
  | acc, d :: rest =>
    match divRecord? d with
    | some r => primaryAux (acc ++ [r]) rest
    | none => primaryAux acc rest

/-- The primary extraction pass of `search_web_simple`. -/
def primaryPass (maxResults : Nat) (divs : List ResultDiv) : List SearchRecord :=
  primaryAux [] (divs.take maxResults)

/-- The filter of the fallback loop (main.py lines 61-63): href starts with
`http`, does not contain `duckduckgo.com`, and the stripped text is longer
than 10 characters. -/
def fallbackOk (l : PageLink) : Bool :=
  startsWith "http".data l.href
    && !containsStr ddgDomain l.href
    && decide (10 < (pyStrip l.text).length)

/-- The record appended by the fallback loop (main.py lines 64-69): the
stripped anchor text truncated to 100/200, the raw href, no collapsing. -/
def linkRecord (l : PageLink) : SearchRecord :=
  ⟨(pyStrip l.text).take 100, l.href, (pyStrip l.text).take 200,
    "DuckDuckGo-Fallback".data⟩

/-- The fallback loop over `links[:max_results]` with its early `break`
once `len(results) >= max_results` (main.py lines 56-71). -/
def fallbackAux (maxResults : Nat) :
    List SearchRecord → List PageLink → List SearchRecord
  | acc, [] => acc
  | acc, l :: rest =>
    if fallbackOk l then
      if maxResults ≤ (acc ++ [linkRecord l]).length then acc ++ [linkRecord l]
      else fallbackAux maxResults (acc ++ [linkRecord l]) rest
    else fallbackAux maxResults acc rest

/-- The fallback extraction pass of `search_web_simple`. -/
def fallbackPass (maxResults : Nat) (links : List PageLink) : List SearchRecord :=
  fallbackAux maxResults [] (links.take maxResults)

/-- The mock record substituted by the `except` handler (main.py lines
76-83). -/
def mockRecord (q : List Char) : SearchRecord :=
  ⟨"Search result for: ".data ++ q,
    "https://duckduckgo.com/?q=".data ++ replaceSpacePlus q,
    "ScrapedDuck search temporarily unavailable. Query: ".data ++ q,
    "ScrapedDuck-Mock".data⟩

/-- What one invocation of `search_web_simple` produced: the returned list
and the URLs it asked the transport collaborator to fetch.  The single
`requests.get` at main.py line 25 is reached unconditionally, so `fetches`
is the one-element list on every path. -/
structure RunResult where
  results : List SearchRecord
  fetches : List (List Char)
deriving DecidableEq

/-- `search_web_simple(query, max_results)` (main.py lines 10-85), with the
collaborators' behaviour passed in as `outcome`.  On an exception anywhere
inside the `try` body the handler reassigns `results` to the single mock
record; otherwise the primary pass runs, and the fallback pass runs only
when the primary pass appended nothing (`if not results:` at line 54). -/
def search_web_simple (q : List Char) (maxResults : Nat)
    (outcome : FetchOutcome) : RunResult :=
  match outcome with
  | .exn _ => ⟨[mockRecord q], [searchUrl q]⟩
  | .ok soup =>
    let primary := primaryPass maxResults soup.resultDivs
    if primary.isEmpty then
      ⟨fallbackPass maxResults soup.links, [searchUrl q]⟩
    else ⟨primary, [searchUrl q]⟩

/-- The success envelope built by `main` (main.py lines 110-115): the
results, the query, `total = len(results)`, the source tag, and no `error`
field (modelled as `none`). -/
structure Envelope where
  results : List SearchRecord
  query : List Char
  total : Nat
  source : List Char
  error : Option (List Char)
deriving DecidableEq

/-- Running `search_web_simple` and wrapping its list in the envelope, as
`main` does on its success path. -/
def runMain (q : List Char) (maxResults : Nat) (outcome : FetchOutcome) :
    Envelope :=
  ⟨(search_web_simple q maxResults outcome).results, q,
    (search_web_simple q maxResults outcome).results.length,
    "ScrapedDuck".data, none⟩

/-- Every whitespace character in the list is a plain space (the shape
`re.sub(r"\s+", " ", ...)` leaves behind). -/
def onlySp : List Char → Bool
  | [] => true
  | c :: rest => (!pyWs c || c = ' ') && onlySp rest

/-- No two adjacent whitespace characters. -/
def noRun : List Char → Bool
  | [] => true
  | [_] => true
  | c :: d :: rest => !(pyWs c && pyWs d) && noRun (d :: rest)

/-- The first character, when present, is not whitespace. -/
def headOk : List Char → Bool
  | [] => true
  | c :: _ => !pyWs c

/-- Modelled from the spec only for stating claim C8: the allow-list of
section 4.1 (letters, digits, the punctuation `- . , ! ? ; : ( ) [ ] "`,
and spaces).  The source code contains no such allow-list. -/
def specAllowed (c : Char) : Bool :=
  c.isAlpha || c.isDigit
    || ['-', '.', ',', '!', '?', ';', ':', '(', ')', '[', ']', '\"', ' '].contains c

namespace Searx

/-- One entry of the decoded `data['results']` collection in
`WebSearchSpider.parse_searx` (scrapy-search.py lines 130-144); each key
may be absent. -/
structure Entry where
  title : Option (List Char)
  url : Option (List Char)
  content : Option (List Char)
deriving DecidableEq

/-- Python truthiness of `result.get(key)` for a string-valued key: the key
is present and its value is a non-empty string. -/
def truthy : Option (List Char) → Bool
  | none => false
  | some s => !s.isEmpty

/-- The record appended at scrapy-search.py lines 137-142: `title[:100]`,
the raw url, `result.get('content', result['title'])[:200]` (the default
applies only when the `content` key is absent), source tag `SearX`. -/
def entryRecord (e : Entry) : SearchRecord :=
  ⟨(e.title.getD []).take 100, e.url.getD [],
    (e.content.getD (e.title.getD [])).take 200, "SearX".data⟩

/-- The loop of `parse_searx` over `data['results'][:k]`: an entry is
appended exactly when both `result.get('title')` and `result.get('url')`
are truthy. -/
def searxAux : List Entry → List SearchRecord
  | [] => []
  | e :: rest =>
    if truthy e.title && truthy e.url then entryRecord e :: searxAux rest
    else searxAux rest

/-- `parse_searx` on a decodable body whose results collection is
`entries`, with `k = max_results - len(self.results)` remaining slots. -/
def parse_searx (entries : List Entry) (k : Nat) : List SearchRecord :=
  searxAux (entries.take k)

end Searx

end ScrapedDuck

namespace ScrapedDuck

/-- The primary loop is the filterMap of its per-container body: each
qualifying candidate is appended, in order, with nothing removed. -/
theorem primaryAux_eq (l : List ResultDiv) (acc : List SearchRecord) :
    primaryAux acc l = acc ++ l.filterMap divRecord? := by
  induction l generalizing acc with
  | nil => simp [primaryAux]
  | cons d rest ih =>
    cases h : divRecord? d with
    | none => simp [primaryAux, h, ih]
    | some r => simp [primaryAux, h, ih]

/-- The fallback loop appends at most one record per link it inspects. -/
theorem fallbackAux_length (mr : Nat) (l : List PageLink)
    (acc : List SearchRecord) :
    (fallbackAux mr acc l).length ≤ acc.length + l.length := by
  induction l generalizing acc with
  | nil => simp [fallbackAux]
  | cons lk rest ih =>
    cases hok : fallbackOk lk with
    | false =>
      have := ih acc
      simp only [fallbackAux, hok, Bool.false_eq_true, if_false, List.length_cons]
      omega
    | true =>
      simp only [fallbackAux, hok, if_true]
      by_cases hbr : mr ≤ (acc ++ [linkRecord lk]).length
      · rw [if_pos hbr]
        simp only [List.length_append, List.length_singleton, List.length_cons,
          List.length_nil] at hbr ⊢
        omega
      · rw [if_neg hbr]
        have := ih (acc ++ [linkRecord lk])
        simp only [List.length_append, List.length_singleton,
          List.length_cons, List.length_nil] at this ⊢
        omega

/-- Every record produced by the primary loop is either carried over from
the accumulator or produced from one of the inspected containers. -/
theorem mem_primaryAux {r : SearchRecord} (l : List ResultDiv)
    (acc : List SearchRecord) (h : r ∈ primaryAux acc l) :
    r ∈ acc ∨ ∃ d ∈ l, divRecord? d = some r := by
  rw [primaryAux_eq] at h
  rcases List.mem_append.mp h with h | h
  · exact Or.inl h
  · exact Or.inr (List.mem_filterMap.mp h)

/-- Every record produced by the fallback loop is either carried over from
the accumulator or built from one of the inspected links. -/
theorem mem_fallbackAux {r : SearchRecord} (mr : Nat) (l : List PageLink)
    (acc : List SearchRecord) (h : r ∈ fallbackAux mr acc l) :
    r ∈ acc ∨ ∃ lk ∈ l, r = linkRecord lk := by
  induction l generalizing acc with
  | nil =>
    simp only [fallbackAux] at h
    exact Or.inl h
  | cons lk rest ih =>
    cases hok : fallbackOk lk with
    | false =>
      simp only [fallbackAux, hok, Bool.false_eq_true, if_false] at h
      rcases ih acc h with h | ⟨lk', h1, h2⟩
      · exact Or.inl h
      · exact Or.inr ⟨lk', List.mem_cons_of_mem _ h1, h2⟩
    | true =>
      by_cases hbr : mr ≤ (acc ++ [linkRecord lk]).length
      · simp only [fallbackAux, hok, if_true, hbr] at h
        rcases List.mem_append.mp h with h | h
        · exact Or.inl h
        · exact Or.inr ⟨lk, List.mem_cons_self lk rest, by
            simpa using (List.mem_singleton.mp h)⟩
      · simp only [fallbackAux, hok, if_true, hbr, if_false] at h
        rcases ih (acc ++ [linkRecord lk]) h with h | ⟨lk', h1, h2⟩
        · rcases List.mem_append.mp h with h | h
          · exact Or.inl h
          · exact Or.inr ⟨lk, List.mem_cons_self lk rest, by
              simpa using (List.mem_singleton.mp h)⟩
        · exact Or.inr ⟨lk', List.mem_cons_of_mem _ h1, h2⟩

/-- The per-container body only ever emits records whose title and snippet
were truncated to 100 and 200 characters. -/
theorem divRecord?_bounds {d : ResultDiv} {r : SearchRecord}
    (h : divRecord? d = some r) :
    r.title.length ≤ 100 ∧ r.snippet.length ≤ 200 := by
  unfold divRecord? at h
  cases htl : d.titleLink with
  | none => rw [htl] at h; exact absurd h (by simp)
  | some tl =>
    rw [htl] at h
    simp only at h
    split at h
    · cases h
      refine ⟨?_, ?_⟩ <;> simp [List.length_take]
    · exact absurd h (by simp)

/-- The fallback record's title and snippet are truncated to 100 and 200
characters. -/
theorem linkRecord_bounds (lk : PageLink) :
    (linkRecord lk).title.length ≤ 100 ∧ (linkRecord lk).snippet.length ≤ 200 := by
  refine ⟨?_, ?_⟩ <;> simp [linkRecord, List.length_take]

/-- Claim C1 counterexample: the claim says no two records of one run's
final results share a url, but `search_web_simple` performs no
deduplication — two result containers carrying the same href both survive,
and the returned results hold the url `http://x.com` twice. -/
theorem claim_C1_cex :
    ((search_web_simple ['q'] 5
      (.ok ⟨[⟨some ⟨['A'], some "http://x.com".data⟩, none⟩,
             ⟨some ⟨['A'], some "http://x.com".data⟩, none⟩], []⟩)).results.map
        (fun r => r.url))
      = ["http://x.com".data, "http://x.com".data] := by decide

/-- Claim C1 (amended): no URL deduplication is performed within a run —
the primary pass keeps every qualifying raw candidate of the first
`max_results` containers, in order, duplicates included: it equals a plain
filterMap with no membership test against previously collected urls. -/
theorem claim_C1_amended (maxResults : Nat) (divs : List ResultDiv) :
    primaryPass maxResults divs = (divs.take maxResults).filterMap divRecord? := by
  simpa using primaryAux_eq (divs.take maxResults) []

/-- Claim C2 counterexample: with `max_results = 0` and a raising fetch,
the except handler returns the one-element mock list, so
`len(results) <= max_results` fails. -/
theorem claim_C2_cex :
    ¬ ((search_web_simple ['q'] 0 (.exn ['e'])).results.length ≤ 0) := by
  decide

/-- Claim C2 (amended): `len(results) <= max(max_results, 1)` — the cap
`len(results) <= max_results` holds on every non-raising path, but the
exception path returns exactly one mock record regardless of
`max_results`, exceeding the cap precisely when `max_results = 0`. -/
theorem claim_C2_amended (q : List Char) (maxResults : Nat)
    (outcome : FetchOutcome) :
    (search_web_simple q maxResults outcome).results.length
      ≤ max maxResults 1 := by
  cases outcome with
  | exn m =>
    simp [search_web_simple]
  | ok soup =>
    have hle : (search_web_simple q maxResults (.ok soup)).results.length
        ≤ maxResults := by
      simp only [search_web_simple]
      by_cases hp : (primaryPass maxResults soup.resultDivs).isEmpty
      · rw [if_pos hp]
        have h1 := fallbackAux_length maxResults
          (soup.links.take maxResults) []
        have h2 : (soup.links.take maxResults).length ≤ maxResults := by
          simp [List.length_take]
        simpa [fallbackPass] using le_trans h1 (by simp [List.length_take])
      · rw [if_neg hp]
        have h1 : (primaryPass maxResults soup.resultDivs).length
            ≤ (soup.resultDivs.take maxResults).length := by
          rw [primaryPass, primaryAux_eq]
          simpa using List.length_filterMap_le divRecord?
            (soup.resultDivs.take maxResults)
        have h2 : (soup.resultDivs.take maxResults).length ≤ maxResults := by
          simp [List.length_take]
        exact le_trans h1 h2
    exact le_trans hle (le_max_left _ _)

/-- Claim C3 counterexample: when the single provider fails by raising
(so zero records were collected), the engine itself substitutes the
synthetic mock record instead of returning the empty-result envelope the
claim demands. -/
theorem claim_C3_cex :
    (search_web_simple ['q'] 5 (.exn ['x'])).results = [mockRecord ['q']]
      ∧ (search_web_simple ['q'] 5 (.exn ['x'])).results ≠ [] :=
  ⟨rfl, by decide⟩

/-- Claim C3 (amended): when the fetch fails without raising — modelled as
a response whose parsed document has no result containers and no anchors —
the engine does return the valid empty-result envelope (empty results,
`total = 0`, no `error` field); but when the fetch raises, the engine
itself substitutes the single synthetic mock record. -/
theorem claim_C3_amended (q : List Char) (maxResults : Nat) :
    runMain q maxResults (.ok ⟨[], []⟩) = ⟨[], q, 0, "ScrapedDuck".data, none⟩ := by
  simp [runMain, search_web_simple, primaryPass, primaryAux, fallbackPass,
    fallbackAux, List.take_nil]

/-- Claim C4 counterexample: the primary pass collects one record with
`max_results = 2` — a shortfall with at least one record — and the page
holds a link the fallback pass would accept, yet the engine returns the
single primary record: the fallback is not consulted to fill a shortfall. -/
theorem claim_C4_cex :
    fallbackOk ⟨"http://y.com".data, "interesting page text".data⟩ = true
      ∧ (search_web_simple ['q'] 2
          (.ok ⟨[⟨some ⟨['A'], some "http://x.com".data⟩, none⟩],
                [⟨"http://y.com".data, "interesting page text".data⟩]⟩)).results.length
        = 1 := by decide

/-- Claim C4 (amended): the engine consults the fallback extraction pass
only when the primary pass collected zero records (`if not results:`); a
nonzero shortfall is returned as-is, with no further provider consulted. -/
theorem claim_C4_amended (q : List Char) (maxResults : Nat) (soup : Soup)
    (h : primaryPass maxResults soup.resultDivs ≠ []) :
    (search_web_simple q maxResults (.ok soup)).results
      = primaryPass maxResults soup.resultDivs := by
  simp only [search_web_simple]
  rw [if_neg (by simpa [List.isEmpty_iff] using h)]

/-- Claim C4 witness: the amended theorem applied to a concrete run whose
primary pass is non-empty. -/
theorem claim_C4_witness :
    (search_web_simple ['q'] 1
      (.ok ⟨[⟨some ⟨['A'], some "http://x.com".data⟩, none⟩], []⟩)).results
      = primaryPass 1 [⟨some ⟨['A'], some "http://x.com".data⟩, none⟩] :=
  claim_C4_amended ['q'] 1
    ⟨[⟨some ⟨['A'], some "http://x.com".data⟩, none⟩], []⟩ (by decide)

/-- Claim C5 counterexample: with `max_results = 0` the results are empty,
but the claim's "no fetch is attempted" part fails — `requests.get` at
main.py line 25 runs unconditionally, so the run still issues one fetch. -/
theorem claim_C5_cex :
    (search_web_simple ['q'] 0 (.ok ⟨[], []⟩)).results = []
      ∧ (search_web_simple ['q'] 0 (.ok ⟨[], []⟩)).fetches ≠ [] := by decide

/-- Claim C5 (amended): `max_results = 0` with a non-raising fetch yields
the empty results and `total = 0`, but the engine still attempts exactly
one fetch of the DuckDuckGo search URL — no path avoids invoking the
provider. -/
theorem claim_C5_amended (q : List Char) (soup : Soup) :
    (runMain q 0 (.ok soup)).results = []
      ∧ (runMain q 0 (.ok soup)).total = 0
      ∧ (search_web_simple q 0 (.ok soup)).fetches = [searchUrl q] := by
  refine ⟨?_, ?_, ?_⟩ <;>
    simp [runMain, search_web_simple, primaryPass, primaryAux, fallbackPass,
      fallbackAux]

/-- Claim C6 counterexample: on the exception path the mock record embeds
the raw query in its title without truncation, so a 101-character query
yields a 120-character title, beyond the claimed 100-character cap. -/
theorem claim_C6_cex :
    ((search_web_simple (List.replicate 101 'a') 5 (.exn ['e'])).results.map
      (fun r => r.title.length)) = [120] ∧ ¬ (120 ≤ 100) := by
  refine ⟨?_, by decide⟩
  simp [search_web_simple, mockRecord, List.length_append]

/-- Claim C6 (amended): on every non-raising path each returned record has
a title of at most 100 characters and a snippet of at most 200 characters
(the hard cuts `[:100]` and `[:200]`); on the exception path the mock
record embeds the raw query untruncated and can exceed both caps. -/
theorem claim_C6_amended (q : List Char) (maxResults : Nat) (soup : Soup)
    (r : SearchRecord)
    (h : r ∈ (search_web_simple q maxResults (.ok soup)).results) :
    r.title.length ≤ 100 ∧ r.snippet.length ≤ 200 := by
  simp only [search_web_simple] at h
  by_cases hp : (primaryPass maxResults soup.resultDivs).isEmpty
  · rw [if_pos hp] at h
    simp only [fallbackPass] at h
    rcases mem_fallbackAux maxResults _ _ h with h | ⟨lk, _, rfl⟩
    · exact absurd h (List.not_mem_nil r)
    · exact linkRecord_bounds lk
  · rw [if_neg hp] at h
    simp only [primaryPass] at h
    rcases mem_primaryAux _ _ h with h | ⟨d, _, hd⟩
    · exact absurd h (List.not_mem_nil r)
    · exact divRecord?_bounds hd

/-- Claim C6 witness: the amended theorem applied to a concrete run
producing one record. -/
theorem claim_C6_witness :
    (⟨['A'], "http://x.com".data, ['A'], "DuckDuckGo-Simple".data⟩ :
        SearchRecord).title.length ≤ 100
      ∧ (⟨['A'], "http://x.com".data, ['A'], "DuckDuckGo-Simple".data⟩ :
        SearchRecord).snippet.length ≤ 200 :=
  claim_C6_amended ['q'] 5
    ⟨[⟨some ⟨['A'], some "http://x.com".data⟩, none⟩], []⟩
    ⟨['A'], "http://x.com".data, ['A'], "DuckDuckGo-Simple".data⟩ (by decide)

/-- Claim C9 counterexample: an entry whose `title` is present and truthy
but whose `url` is absent is skipped by `parse_searx` (the code requires
both keys truthy), contradicting the claim that an entry with at least one
of title or url present is not skipped. -/
theorem claim_C9_cex :
    Searx.truthy (some ['T']) = true
      ∧ Searx.parse_searx [⟨some ['T'], none, none⟩] 5 = [] := by decide

/-- Claim C9 (amended): `parse_searx` keeps exactly the entries whose
`title` and `url` are both present and non-empty — an entry lacking either
is skipped — mapping each kept entry to
`(title[:100], url, content-or-title[:200])` with source `SearX`. -/
theorem claim_C9_amended (entries : List Searx.Entry) (k : Nat) :
    Searx.parse_searx entries k
      = ((entries.take k).filter
          (fun e => Searx.truthy e.title && Searx.truthy e.url)).map
            Searx.entryRecord := by
  unfold Searx.parse_searx
  induction entries.take k with
  | nil => rfl
  | cons e rest ih =>
    cases h : (Searx.truthy e.title && Searx.truthy e.url) with
    | false => simp [Searx.searxAux, h, ih]
    | true => simp [Searx.searxAux, h, ih]

/-- Whitespace characters surviving the collapsing pass are plain spaces. -/
theorem onlySp_collapseAux (b : Bool) (l : List Char) :
    onlySp (collapseAux b l) = true := by
  induction l generalizing b with
  | nil => rfl
  | cons c rest ih =>
    have hsp : pyWs ' ' = true := by decide
    cases hc : pyWs c with
    | true =>
      cases b with
      | true => simpa [collapseAux, hc] using ih true
      | false => simp [collapseAux, hc, onlySp, ih true]
    | false => simp [collapseAux, hc, onlySp, ih false]

/-- A collapse continuing a whitespace run starts with a non-space. -/
theorem headOk_collapseAux_true (l : List Char) :
    headOk (collapseAux true l) = true := by
  induction l with
  | nil => rfl
  | cons c rest ih =>
    cases hc : pyWs c with
    | true => simpa [collapseAux, hc] using ih
    | false => simp [collapseAux, hc, headOk]

/-- Collapsing preserves a whitespace-free head. -/
theorem headOk_collapseAux_false (l : List Char) (h : headOk l = true) :
    headOk (collapseAux false l) = true := by
  cases l with
  | nil => rfl
  | cons c rest =>
    have hc : pyWs c = false := by simpa [headOk] using h
    simp [collapseAux, hc, headOk]

/-- Prepending a character keeps runs out as long as the character or the
list head is not whitespace. -/
theorem noRun_cons' {c : Char} {l : List Char} (hl : noRun l = true)
    (h : pyWs c = false ∨ headOk l = true) : noRun (c :: l) = true := by
  cases l with
  | nil => rfl
  | cons d rest =>
    have hd : (pyWs c && pyWs d) = false := by
      rcases h with h | h
      · simp [h]
      · have : pyWs d = false := by simpa [headOk] using h
        simp [this]
    simp [noRun, hd, hl]

/-- The collapsing pass leaves no two adjacent whitespace characters. -/
theorem noRun_collapseAux (b : Bool) (l : List Char) :
    noRun (collapseAux b l) = true := by
  induction l generalizing b with
  | nil => rfl
  | cons c rest ih =>
    cases hc : pyWs c with
    | false =>
      have he : collapseAux b (c :: rest) = c :: collapseAux false rest := by
        simp [collapseAux, hc]
      rw [he]
      exact noRun_cons' (ih false) (Or.inl hc)
    | true =>
      cases b with
      | true =>
        have he : collapseAux true (c :: rest) = collapseAux true rest := by
          simp [collapseAux, hc]
        rw [he]
        exact ih true
      | false =>
        have he : collapseAux false (c :: rest) = ' ' :: collapseAux true rest := by
          simp [collapseAux, hc]
        rw [he]
        exact noRun_cons' (ih true) (Or.inr (headOk_collapseAux_true rest))

/-- On a list already in collapsed shape (whitespace only as isolated
spaces, and a non-whitespace head when continuing a run) the collapsing
pass is the identity. -/
theorem collapseAux_eq_self (l : List Char) :
    ∀ b : Bool, onlySp l = true → noRun l = true →
      (b = true → headOk l = true) → collapseAux b l = l := by
  induction l with
  | nil => intro b _ _ _; rfl
  | cons c rest ih =>
    intro b hsp hnr hb
    have hsp' : onlySp rest = true := by
      simp [onlySp] at hsp
      exact hsp.2
    have hnr' : noRun rest = true := by
      cases rest with
      | nil => rfl
      | cons d rest' =>
        simp [noRun] at hnr
        simpa [noRun] using hnr.2
    cases hc : pyWs c with
    | false =>
      have he : collapseAux b (c :: rest) = c :: collapseAux false rest := by
        simp [collapseAux, hc]
      rw [he, ih false hsp' hnr' (by intro h; exact absurd h (by decide))]
    | true =>
      have hcsp : c = ' ' := by
        simp [onlySp, hc] at hsp
        exact hsp.1
      cases b with
      | true =>
        have := hb rfl
        simp [headOk, hc] at this
      | false =>
        have hho : headOk rest = true := by
          cases rest with
          | nil => rfl
          | cons d rest' =>
            simp [noRun, hc] at hnr
            simpa [headOk] using hnr.1
        have he : collapseAux false (c :: rest) = ' ' :: collapseAux true rest := by
          simp [collapseAux, hc]
        rw [he, ih true hsp' hnr' (fun _ => hho), hcsp]

/-- Truncation preserves the only-spaces property. -/
theorem onlySp_take (n : Nat) (l : List Char) (h : onlySp l = true) :
    onlySp (l.take n) = true := by
  induction l generalizing n with
  | nil => simpa [List.take_nil] using h
  | cons c rest ih =>
    cases n with
    | zero => rfl
    | succ m =>
      simp [onlySp] at h ⊢
      exact ⟨h.1, ih m h.2⟩

/-- Truncation preserves a whitespace-free head. -/
theorem headOk_take (n : Nat) (l : List Char) (h : headOk l = true) :
    headOk (l.take n) = true := by
  cases l with
  | nil => cases n <;> rfl
  | cons c rest => cases n with
    | zero => rfl
    | succ m => simpa [headOk] using h

/-- Truncation cannot create an adjacent pair of whitespace characters. -/
theorem noRun_take (n : Nat) (l : List Char) (h : noRun l = true) :
    noRun (l.take n) = true := by
  induction l generalizing n with
  | nil => cases n <;> rfl
  | cons c rest ih =>
    cases n with
    | zero => rfl
    | succ m =>
      have hr : noRun rest = true := by
        cases rest with
        | nil => rfl
        | cons d r' =>
          simp [noRun] at h
          simpa [noRun] using h.2
      refine noRun_cons' (ih m hr) ?_
      cases rest with
      | nil => exact Or.inr (by cases m <;> rfl)
      | cons d r' =>
        cases hc : pyWs c with
        | false => exact Or.inl rfl
        | true =>
          simp [noRun, hc] at h
          exact Or.inr (headOk_take m (d :: r') (by simpa [headOk] using h.1))

/-- Stripping the front leaves a whitespace-free head. -/
theorem headOk_dropWhile (l : List Char) :
    headOk (l.dropWhile pyWs) = true := by
  induction l with
  | nil => rfl
  | cons c rest ih =>
    cases hc : pyWs c with
    | true => simpa [List.dropWhile_cons, hc] using ih
    | false => simp [List.dropWhile_cons, hc, headOk]

/-- A full Python strip leaves a whitespace-free head. -/
theorem headOk_pyStrip (l : List Char) : headOk (pyStrip l) = true := by
  unfold pyStrip
  cases hx : List.rdropWhile pyWs (l.dropWhile pyWs) with
  | nil => rfl
  | cons c rest =>
    have hpre : List.rdropWhile pyWs (l.dropWhile pyWs) <+: l.dropWhile pyWs :=
      List.rdropWhile_prefix pyWs (l.dropWhile pyWs)
    rcases hpre with ⟨t, ht⟩
    rw [hx] at ht
    have := headOk_dropWhile l
    rw [← ht] at this
    simpa [headOk] using this

/-- In a collapsed string, any whitespace character is a space. -/
theorem onlySp_mem {l : List Char} (h : onlySp l = true) {c : Char}
    (hc : c ∈ l) (hw : pyWs c = true) : c = ' ' := by
  induction l with
  | nil => cases hc
  | cons d rest ih =>
    simp [onlySp] at h
    rcases List.mem_cons.mp hc with rfl | hc'
    · rcases h.1 with h1 | h1
      · exact absurd hw (by simp [h1])
      · exact h1
    · exact ih h.2 hc'

/-- On a string with a non-whitespace head, only isolated spaces, and a
non-space last character, the Python strip is the identity. -/
theorem pyStrip_eq_self {l : List Char} (h1 : headOk l = true)
    (h2 : l.getLast? ≠ some ' ') (h3 : onlySp l = true) : pyStrip l = l := by
  unfold pyStrip
  have hd : l.dropWhile pyWs = l := by
    cases l with
    | nil => rfl
    | cons c rest =>
      have hc : pyWs c = false := by simpa [headOk] using h1
      simp [List.dropWhile_cons, hc]
  rw [hd, List.rdropWhile_eq_self_iff]
  intro hl hlast
  have hmem : l.getLast hl ∈ l := List.getLast_mem hl
  have hsp : l.getLast hl = ' ' := onlySp_mem h3 hmem (by simpa using hlast)
  exact h2 (by rw [List.getLast?_eq_getLast l hl, hsp])

/-- Claim C7 counterexample: truncation can cut immediately after a
collapsed space — `normalize "a b" 2 = "a "` but a second application
strips the trailing space, giving `"a"`, so the pipeline is not
idempotent. -/
theorem claim_C7_cex :
    normalize (normalize ['a', ' ', 'b'] 2) 2 ≠ normalize ['a', ' ', 'b'] 2 := by
  decide

/-- Claim C7 (amended): the pipeline is idempotent on every input whose
normalized form does not end in a space; in the remaining case the
truncation has cut just after a collapsed space and the second application
merely drops that one trailing space. -/
theorem claim_C7_amended (s : List Char) (n : Nat)
    (h : (normalize s n).getLast? ≠ some ' ') :
    normalize (normalize s n) n = normalize s n := by
  have hsp : onlySp (normalize s n) = true :=
    onlySp_take n _ (onlySp_collapseAux false _)
  have hnr : noRun (normalize s n) = true :=
    noRun_take n _ (noRun_collapseAux false _)
  have hho : headOk (normalize s n) = true :=
    headOk_take n _ (headOk_collapseAux_false _ (headOk_pyStrip s))
  have hlen : (normalize s n).length ≤ n := by
    simp [normalize, List.length_take]
  conv_lhs => rw [normalize]
  rw [pyStrip_eq_self hho h hsp]
  rw [collapseWs,
    collapseAux_eq_self (normalize s n) false hsp hnr
      (by intro hb; exact absurd hb (by decide))]
  exact List.take_of_length_le hlen

/-- Claim C7 witness: the amended idempotence applied at a concrete
input whose normalized form ends in a letter. -/
theorem claim_C7_witness :
    normalize (normalize ['h', 'i'] 5) 5 = normalize ['h', 'i'] 5 :=
  claim_C7_amended ['h', 'i'] 5 (by decide)

/-- Dropping leading whitespace does not change the non-whitespace
characters. -/
theorem filter_dropWhile (l : List Char) :
    (l.dropWhile pyWs).filter (fun c => !pyWs c)
      = l.filter (fun c => !pyWs c) := by
  induction l with
  | nil => rfl
  | cons c rest ih =>
    cases hc : pyWs c with
    | true => simp [List.dropWhile_cons, List.filter_cons, hc, ih]
    | false => simp [List.dropWhile_cons, List.filter_cons, hc]

/-- Dropping trailing whitespace does not change the non-whitespace
characters. -/
theorem filter_rdropWhile (l : List Char) :
    (List.rdropWhile pyWs l).filter (fun c => !pyWs c)
      = l.filter (fun c => !pyWs c) := by
  rw [List.rdropWhile, List.filter_reverse, filter_dropWhile,
    ← List.filter_reverse, List.reverse_reverse]

/-- Collapsing whitespace does not change the non-whitespace characters. -/
theorem filter_collapseAux (b : Bool) (l : List Char) :
    (collapseAux b l).filter (fun c => !pyWs c)
      = l.filter (fun c => !pyWs c) := by
  induction l generalizing b with
  | nil => rfl
  | cons c rest ih =>
    have hsp : pyWs ' ' = true := by decide
    cases hc : pyWs c with
    | true =>
      cases b with
      | true => simp [collapseAux, hc, List.filter_cons, ih true]
      | false => simp [collapseAux, hc, List.filter_cons, ih true, hsp]
    | false => simp [collapseAux, hc, List.filter_cons, ih false]

/-- Claim C8 counterexample: the normalizer has no allow-list — the
character `<`, outside the claimed allow-list, passes through unchanged
instead of being replaced by a space. -/
theorem claim_C8_cex :
    specAllowed '<' = false
      ∧ normalize ['a', '<', 'b'] 100 = ['a', '<', 'b'] := by decide

/-- Claim C8 (amended): the normalizer performs no allow-list stripping:
apart from whitespace trimming and collapsing (and the final truncation),
every non-whitespace character — inside the claimed allow-list or not —
passes through unchanged: the strip-and-collapse pipeline preserves the
sequence of non-whitespace characters exactly. -/
theorem claim_C8_amended (s : List Char) :
    (collapseWs (pyStrip s)).filter (fun c => !pyWs c)
      = s.filter (fun c => !pyWs c) := by
  rw [collapseWs, filter_collapseAux, pyStrip, filter_rdropWhile,
    filter_dropWhile]

/-- Claim C10: `search_web_simple` is total at its boundary (the model
returns a list on every outcome by construction), and whenever any
exception is raised inside the fetch-and-parse body the returned list is
exactly the one synthetic record with source `ScrapedDuck-Mock` whose url
is the DuckDuckGo search URL built from the query with spaces replaced by
`+`; the envelope then reports `total = 1` and carries no error field. -/
theorem claim_C10_exception_behavior (q : List Char) (maxResults : Nat)
    (m : List Char) :
    (runMain q maxResults (.exn m)).results = [mockRecord q]
      ∧ (runMain q maxResults (.exn m)).total = 1
      ∧ (runMain q maxResults (.exn m)).error = none
      ∧ (mockRecord q).source = "ScrapedDuck-Mock".data
      ∧ (mockRecord q).url
          = "https://duckduckgo.com/?q=".data ++ replaceSpacePlus q :=
  ⟨rfl, rfl, rfl, rfl, rfl⟩

end ScrapedDuck
